import Mathlib

/-!
Verification of the quantization-aware-training layers in
`whisper_q/q_layers.py`.

The tensor operations used by the source are element-wise arithmetic,
global / per-row reductions and reshapes, so tensors are embedded as
(nested) lists of exact rationals.  Two embeddings appear:

* the `ℚ` model (`symLayerwise`, `twnLayerwise`, ...) is the exact-arithmetic
  translation of each source line, valid on inputs where the source performs
  no division by zero;
* the `FP` model (`symLayerwiseFP`, `twnLayerwiseFP`) additionally tracks the
  IEEE-754 special values `inf`/`-inf`/`nan` produced by the very same source
  lines when a reduction degenerates (maximum or mean equal to zero), which
  the `ℚ` field cannot express.

`torch.round` rounds half to even; `rndEven` is that rounding.
-/

/-- Round to nearest integer, ties to even (the rounding used by
`torch.round`). -/
def rndEven (q : ℚ) : ℤ :=
  if q - ⌊q⌋ < 1 / 2 then ⌊q⌋
  else if 1 / 2 < q - ⌊q⌋ then ⌊q⌋ + 1
  else if ⌊q⌋ % 2 = 0 then ⌊q⌋ else ⌊q⌋ + 1

/-- `torch.clamp(x, lo, hi)` = `min(max(x, lo), hi)`. -/
def clampC (lo hi x : ℚ) : ℚ := min (max x lo) hi

/-- `torch.max(torch.abs(t))` over the flattened elements (0 is the fold
base; absolute values are nonnegative, so the base never wins on a nonempty
tensor). -/
def maxAbs (xs : List ℚ) : ℚ := xs.foldl (fun a x => max a |x|) 0

/-- `s = (2 ** (num_bits - 1) - 1) / max_input` (q_layers.py line 45). -/
def symScale (numBits : ℕ) (xs : List ℚ) : ℚ :=
  ((2 : ℚ) ^ (numBits - 1) - 1) / maxAbs xs

/-- One element of `torch.round(input * s).div(s)` (q_layers.py line 46). -/
def symQuantElem (s x : ℚ) : ℚ := ((rndEven (x * s) : ℤ) : ℚ) / s

/-- Quantize a (already clamped) group of elements with one shared dynamic
scale. -/
def symQuantList (numBits : ℕ) (xs : List ℚ) : List ℚ :=
  xs.map (symQuantElem (symScale numBits xs))

/-- `SymQuantizer.forward` with `layerwise=True` on the flattened tensor:
clamp, one global scale, round, rescale (q_layers.py lines 27-46). -/
def symLayerwise (lo hi : ℚ) (numBits : ℕ) (xs : List ℚ) : List ℚ :=
  symQuantList numBits (xs.map (clampC lo hi))

/-- A tensor: its shape and its row-major flattened data. -/
structure Tensor where
  shape : List ℕ
  data : List ℚ
deriving DecidableEq

/-- Split a flat list into consecutive chunks of size `c` (the groups over
which a `dim=-1` reduction acts). -/
def chunkList (c : ℕ) (xs : List ℚ) : List (List ℚ) :=
  if h : c = 0 ∨ xs = [] then [] else
    xs.take c :: chunkList c (xs.drop c)
termination_by xs.length
decreasing_by
  rcases Nat.eq_zero_or_pos c with hc | hc
  · exact absurd (Or.inl hc) h
  · have hx : xs ≠ [] := fun hx => h (Or.inr hx)
    have : 0 < xs.length := List.length_pos.mpr hx
    simpa [List.length_drop] using Nat.sub_lt this hc

namespace SymQuantizer

/-- `SymQuantizer.forward(input, clip_val, num_bits, layerwise)`
(q_layers.py lines 25-48).  The `layerwise` branch reduces over the whole
tensor; otherwise the reduction is over the last axis (rank ≤ 3) or the two
trailing axes (rank 4); ranks above 4 raise `ValueError`. -/
def forward (t : Tensor) (clipVal : ℚ × ℚ) (numBits : ℕ) (layerwise : Bool) :
    Except String Tensor :=
  let cl := t.data.map (clampC clipVal.1 clipVal.2)
  if layerwise then
    .ok ⟨t.shape, symQuantList numBits cl⟩
  else if t.shape.length ≤ 3 then
    .ok ⟨t.shape, ((chunkList (t.shape.getLastD 1) cl).map
      (symQuantList numBits)).flatten⟩
  else if t.shape.length = 4 then
    .ok ⟨t.shape, ((chunkList (t.shape.getD 2 1 * t.shape.getD 3 1) cl).map
      (symQuantList numBits)).flatten⟩
  else
    .error ("Unsupported tensor size for quantization. Expected <4 dimensions, got "
      ++ toString t.shape.length ++ ".")

/-- The straight-through mask of `SymQuantizer.backward` (q_layers.py lines
60-62): clone the incoming gradient, zero it where the saved pre-clamp input
is `≥ clip_val[1]`, then where it is `≤ clip_val[0]`. -/
def steMask (lo hi : ℚ) (input gradOutput : List ℚ) : List ℚ :=
  let g1 := List.zipWith (fun x g => if hi ≤ x then (0 : ℚ) else g) input gradOutput
  List.zipWith (fun x g => if x ≤ lo then (0 : ℚ) else g) input g1

/-- `SymQuantizer.backward(ctx, grad_output)` (q_layers.py lines 50-63):
returns `(grad_input, None, None, None)`. -/
def backward (input : List ℚ) (clipVal : ℚ × ℚ) (gradOutput : List ℚ) :
    List ℚ × Option (ℚ × ℚ) × Option ℕ × Option Bool :=
  (steMask clipVal.1 clipVal.2 input gradOutput, none, none, none)

end SymQuantizer

/-- The clamp used by `TwnQuantizer.forward` (q_layers.py lines 73-74):
`where(x < hi, x, hi)` then `where(x > lo, x, lo)`. -/
def twnClampW (lo hi x : ℚ) : ℚ :=
  let a := if x < hi then x else hi
  if lo < a then a else lo

/-- `m = input.norm(p=1) / n` : mean absolute value with an externally
supplied element count `n`. -/
def meanAbs (n : ℚ) (xs : List ℚ) : ℚ := (xs.map (fun x => |x|)).sum / n

/-- `thres = 0.7 * m` (q_layers.py line 78). -/
def twnThres (n : ℚ) (xs : List ℚ) : ℚ := 7 / 10 * meanAbs n xs

/-- `(input.abs() > thres).float()` for one element. -/
def twnMaskInd (t x : ℚ) : ℚ := if t < |x| then 1 else 0

/-- `alpha = (mask * input).abs().sum() / mask.sum()` (q_layers.py line 82). -/
def twnAlpha (t : ℚ) (xs : List ℚ) : ℚ :=
  (xs.map (fun x => |twnMaskInd t x * x|)).sum / (xs.map (twnMaskInd t)).sum

/-- `alpha * pos - alpha * neg` for one element, with
`pos = (x > thres).float()` and `neg = (x < -thres).float()`
(q_layers.py lines 79-83). -/
def twnOut (t a x : ℚ) : ℚ :=
  a * (if t < x then (1 : ℚ) else 0) - a * (if x < -t then (1 : ℚ) else 0)

/-- The ternarization body shared by the layerwise branch (`n` = element
count of the whole tensor) and each row of the row-wise branch (`n` = row
length taken from the first row). -/
def twnTernarize (n : ℚ) (xs : List ℚ) : List ℚ :=
  xs.map (twnOut (twnThres n xs) (twnAlpha (twnThres n xs) xs))

/-- `TwnQuantizer.forward` with `layerwise=True` on the flattened tensor
(q_layers.py lines 73-83). -/
def twnLayerwise (lo hi : ℚ) (xs : List ℚ) : List ℚ :=
  twnTernarize (((xs.map (twnClampW lo hi)).length : ℕ) : ℚ) (xs.map (twnClampW lo hi))

/-- `TwnQuantizer.forward` with `layerwise=False` on a 2-D tensor
(q_layers.py lines 84-92): `n = input[0].nelement()`, per-row mean, per-row
threshold and per-row alpha. -/
def twnRowwise (lo hi : ℚ) (rows : List (List ℚ)) : List (List ℚ) :=
  (rows.map (fun r => r.map (twnClampW lo hi))).map
    (twnTernarize ((((rows.map (fun r => r.map (twnClampW lo hi))).headD []).length : ℕ) : ℚ))

namespace TwnQuantizer

/-- `TwnQuantizer.forward(input, clip_val, num_bits, layerwise)` on a 2-D
tensor (q_layers.py lines 70-94).  `num_bits` is accepted but unused by the
source body. -/
def forward (input : List (List ℚ)) (clipVal : ℚ × ℚ) (numBits : ℕ)
    (layerwise : Bool) : List (List ℚ) :=
  if layerwise then
    let cl := input.map (fun r => r.map (twnClampW clipVal.1 clipVal.2))
    let t := twnThres ((cl.flatten.length : ℕ) : ℚ) cl.flatten
    cl.map (fun r => r.map (twnOut t (twnAlpha t cl.flatten)))
  else
    twnRowwise clipVal.1 clipVal.2 input

/-- `ctx.save_for_backward(input, clip_val)` (q_layers.py line 71): the saved
context holds the pre-clamp input and the clip values, nothing else. -/
def savedCtx (input : List (List ℚ)) (clipVal : ℚ × ℚ) (numBits : ℕ)
    (layerwise : Bool) : List (List ℚ) × (ℚ × ℚ) :=
  (input, clipVal)

/-- `TwnQuantizer.backward(ctx, grad_output)` (q_layers.py lines 96-109):
the body is token-for-token the one of `SymQuantizer.backward`. -/
def backward (input : List ℚ) (clipVal : ℚ × ℚ) (gradOutput : List ℚ) :
    List ℚ × Option (ℚ × ℚ) × Option ℕ × Option Bool :=
  (SymQuantizer.steMask clipVal.1 clipVal.2 input gradOutput, none, none, none)

end TwnQuantizer

/-! ### Two- and three-dimensional views of the quantizers

The layer wrappers call the quantizers on 2-D (linear / embedding weight,
batched activations) and 3-D (conv weight, conv activations) tensors; the
source operations are element-wise maps with global or per-row reductions,
so the nested-list forms below are the same computations on those shapes. -/

/-- `SymQuantizer.forward` with `layerwise=True` on a 2-D tensor. -/
def symLayerwise2D (lo hi : ℚ) (numBits : ℕ) (w : List (List ℚ)) :
    List (List ℚ) :=
  (w.map (fun r => r.map (clampC lo hi))).map
    (fun r => r.map (symQuantElem (symScale numBits
      (w.map (fun r => r.map (clampC lo hi))).flatten)))

/-- `SymQuantizer.forward` with `layerwise=False` on a 2-D tensor (rank 2 ≤ 3,
so the `dim=-1` branch applies: one scale per row). -/
def symRowwise (lo hi : ℚ) (numBits : ℕ) (w : List (List ℚ)) :
    List (List ℚ) :=
  w.map (fun r => symQuantList numBits (r.map (clampC lo hi)))

/-- `SymQuantizer.forward` on a 2-D tensor, dispatching on `layerwise`. -/
def symForward2D (lo hi : ℚ) (numBits : ℕ) (layerwise : Bool)
    (w : List (List ℚ)) : List (List ℚ) :=
  if layerwise then symLayerwise2D lo hi numBits w
  else symRowwise lo hi numBits w

/-- Flatten a 3-D tensor. -/
def flatten3 (w : List (List (List ℚ))) : List ℚ :=
  (w.map List.flatten).flatten

/-- `SymQuantizer.forward` with `layerwise=True` on a 3-D tensor. -/
def symLayerwise3D (lo hi : ℚ) (numBits : ℕ) (w : List (List (List ℚ))) :
    List (List (List ℚ)) :=
  (w.map (fun p => p.map (fun r => r.map (clampC lo hi)))).map
    (fun p => p.map (fun r => r.map (symQuantElem (symScale numBits
      (flatten3 (w.map (fun p => p.map (fun r => r.map (clampC lo hi)))))))))

/-- `TwnQuantizer.forward` with `layerwise=True` on a 3-D tensor. -/
def twnLayerwise3D (lo hi : ℚ) (w : List (List (List ℚ))) :
    List (List (List ℚ)) :=
  (w.map (fun p => p.map (fun r => r.map (twnClampW lo hi)))).map
    (fun p => p.map (fun r => r.map (twnOut
      (twnThres (((flatten3 (w.map (fun p => p.map (fun r => r.map (twnClampW lo hi))))).length : ℕ) : ℚ)
        (flatten3 (w.map (fun p => p.map (fun r => r.map (twnClampW lo hi))))))
      (twnAlpha
        (twnThres (((flatten3 (w.map (fun p => p.map (fun r => r.map (twnClampW lo hi))))).length : ℕ) : ℚ)
          (flatten3 (w.map (fun p => p.map (fun r => r.map (twnClampW lo hi))))))
        (flatten3 (w.map (fun p => p.map (fun r => r.map (twnClampW lo hi)))))))))

/-- Weight quantizer selection (q_layers.py lines 127-130): `TwnQuantizer`
when `weight_bits == 2`, else `SymQuantizer`; the layers apply it with
`layerwise=True` to a 2-D weight. -/
def quantizeWeight2D (bits : ℕ) (clip : ℚ × ℚ) (w : List (List ℚ)) :
    List (List ℚ) :=
  if bits = 2 then TwnQuantizer.forward w clip bits true
  else symLayerwise2D clip.1 clip.2 bits w

/-- Weight quantizer selection for the 3-D conv weight. -/
def quantizeWeight3D (bits : ℕ) (clip : ℚ × ℚ) (w : List (List (List ℚ))) :
    List (List (List ℚ)) :=
  if bits = 2 then twnLayerwise3D clip.1 clip.2 w
  else symLayerwise3D clip.1 clip.2 bits w

/-- Dot product of two rows. -/
def dotQ (a b : List ℚ) : ℚ := (List.zipWith (· * ·) a b).sum

/-- `nn.functional.linear(input, weight)` (no bias): `out = input @ weight.T`. -/
def linearQ (x w : List (List ℚ)) : List (List ℚ) :=
  x.map (fun row => w.map (fun wr => dotQ row wr))

/-- `out += bias.view(1, -1).expand_as(out)`. -/
def addRowBias (out : List (List ℚ)) (b : List ℚ) : List (List ℚ) :=
  out.map (fun r => List.zipWith (· + ·) r b)

/-- `QuantizeLinear` (q_layers.py lines 112-146).  `input_bits` and
`act_clip_val` are `Option`s because `__init__` only creates
`self.input_bits`, `self.act_quantizer` and `self.act_clip_val` when
`quantize_act` is true. -/
structure QuantizeLinear where
  weight : List (List ℚ)
  bias : Option (List ℚ)
  quantize_act : Bool
  weight_bits : ℕ
  weight_clip_val : ℚ × ℚ
  input_bits : Option ℕ
  act_clip_val : Option (ℚ × ℚ)
deriving DecidableEq

/-- `QuantizeLinear.__init__` (q_layers.py lines 113-135). -/
def QuantizeLinear.init (weight : List (List ℚ)) (bias : Option (List ℚ))
    (quantize_act : Bool) (input_bits : ℕ) (weight_bits : ℕ)
    (clip_val : ℚ) : QuantizeLinear :=
  ⟨weight, bias, quantize_act, weight_bits, (-clip_val, clip_val),
    if quantize_act then some input_bits else none,
    if quantize_act then some (-clip_val, clip_val) else none⟩

/-- `QuantizeLinear.forward` (q_layers.py lines 137-146): quantize the weight,
then unconditionally access `self.act_quantizer` / `self.act_clip_val` /
`self.input_bits`; when these attributes were never created
(`quantize_act=False`) Python raises `AttributeError`. -/
def QuantizeLinear.forward (l : QuantizeLinear) (input : List (List ℚ)) :
    Except String (List (List ℚ)) :=
  let weight := quantizeWeight2D l.weight_bits l.weight_clip_val l.weight
  match l.act_clip_val, l.input_bits with
  | some acv, some ib =>
    let qinput := symLayerwise2D acv.1 acv.2 ib input
    let out := linearQ qinput weight
    .ok (match l.bias with
      | some b => addRowBias out b
      | none => out)
  | _, _ =>
    .error "AttributeError: QuantizeLinear object has no attribute act_quantizer"

/-- State-passing form of `QuantizeLinear.forward`: the Python body assigns no
attribute of `self`, so the post-state is the pre-state. -/
def QuantizeLinear.forwardS (l : QuantizeLinear) (input : List (List ℚ)) :
    Except String (List (List ℚ)) × QuantizeLinear :=
  (l.forward input, l)

/-- The optimizer replacing the stored full-precision weight between calls. -/
def QuantizeLinear.setWeight (l : QuantizeLinear) (w : List (List ℚ)) :
    QuantizeLinear :=
  { l with weight := w }

/-- `QuantizeEmbedding` (q_layers.py lines 149-169). -/
structure QuantizeEmbedding where
  weight : List (List ℚ)
  padding_idx : Option ℕ
  weight_bits : ℕ
  layerwise : Bool
  weight_clip_val : ℚ × ℚ
deriving DecidableEq

/-- `QuantizeEmbedding.__init__` (q_layers.py lines 150-162):
`self.layerwise = False`. -/
def QuantizeEmbedding.init (weight : List (List ℚ)) (padding_idx : Option ℕ)
    (weight_bits : ℕ) (clip_val : ℚ) : QuantizeEmbedding :=
  ⟨weight, padding_idx, weight_bits, false, (-clip_val, clip_val)⟩

/-- `QuantizeEmbedding.forward` (q_layers.py lines 164-169): quantize the
weight row-wise, then `nn.functional.embedding` selects rows of the
quantized weight by index. -/
def QuantizeEmbedding.forward (l : QuantizeEmbedding) (input : List ℕ) :
    List (List ℚ) :=
  let w := if l.weight_bits = 2 then
      TwnQuantizer.forward l.weight l.weight_clip_val l.weight_bits l.layerwise
    else
      symForward2D l.weight_clip_val.1 l.weight_clip_val.2 l.weight_bits
        l.layerwise l.weight
  input.map (fun i => w.getD i [])

/-- State-passing form of `QuantizeEmbedding.forward` (no attribute of `self`
is assigned). -/
def QuantizeEmbedding.forwardS (l : QuantizeEmbedding) (input : List ℕ) :
    List (List ℚ) × QuantizeEmbedding :=
  (l.forward input, l)

/-- Optimizer step on the embedding weight. -/
def QuantizeEmbedding.setWeight (l : QuantizeEmbedding) (w : List (List ℚ)) :
    QuantizeEmbedding :=
  { l with weight := w }

/-- `nn.functional.conv1d(x, w, stride, padding)` for one batch:
`x : channels × time`, `w : out_channels × in_channels × k`, zero padding. -/
def conv1dSample (x : List (List ℚ)) (w : List (List (List ℚ)))
    (stride padding : ℕ) : List (List ℚ) :=
  let T := (x.headD []).length
  let K := ((w.headD []).headD []).length
  let tOut := (T + 2 * padding - K) / stride + 1
  w.map (fun filt =>
    (List.range tOut).map (fun t =>
      (List.zipWith (fun frow chrow =>
        ((List.range K).map (fun j =>
          frow.getD j 0 *
            (if t * stride + j < padding then 0
             else chrow.getD (t * stride + j - padding) 0))).sum)
        filt x).sum))

/-- `nn.functional.conv1d` over a batch. -/
def conv1dQ (x : List (List (List ℚ))) (w : List (List (List ℚ)))
    (stride padding : ℕ) : List (List (List ℚ)) :=
  x.map (fun sample => conv1dSample sample w stride padding)

/-- `out += bias.view(1, -1, 1).expand_as(out)`. -/
def addConvBias (out : List (List (List ℚ))) (b : List ℚ) :
    List (List (List ℚ)) :=
  out.map (fun sample =>
    List.zipWith (fun ch bv => ch.map (· + bv)) sample b)

/-- `QuantizeConv` (q_layers.py lines 172-208); as in `QuantizeLinear` the
activation-quantization attributes exist only when `quantize_act` is true. -/
structure QuantizeConv where
  weight : List (List (List ℚ))
  bias : Option (List ℚ)
  stride : ℕ
  padding : ℕ
  quantize_act : Bool
  weight_bits : ℕ
  weight_clip_val : ℚ × ℚ
  input_bits : Option ℕ
  act_clip_val : Option (ℚ × ℚ)
deriving DecidableEq

/-- `QuantizeConv.__init__` (q_layers.py lines 173-198). -/
def QuantizeConv.init (weight : List (List (List ℚ))) (bias : Option (List ℚ))
    (stride padding : ℕ) (quantize_act : Bool) (input_bits : ℕ)
    (weight_bits : ℕ) (clip_val : ℚ) : QuantizeConv :=
  ⟨weight, bias, stride, padding, quantize_act, weight_bits,
    (-clip_val, clip_val),
    if quantize_act then some input_bits else none,
    if quantize_act then some (-clip_val, clip_val) else none⟩

/-- `QuantizeConv.forward` (q_layers.py lines 200-208); same unconditional
`self.act_quantizer` access as `QuantizeLinear.forward`. -/
def QuantizeConv.forward (l : QuantizeConv) (input : List (List (List ℚ))) :
    Except String (List (List (List ℚ))) :=
  let weight := quantizeWeight3D l.weight_bits l.weight_clip_val l.weight
  match l.act_clip_val, l.input_bits with
  | some acv, some ib =>
    let qinput := symLayerwise3D acv.1 acv.2 ib input
    let out := conv1dQ qinput weight l.stride l.padding
    .ok (match l.bias with
      | some b => addConvBias out b
      | none => out)
  | _, _ =>
    .error "AttributeError: QuantizeConv object has no attribute act_quantizer"

/-- State-passing form of `QuantizeConv.forward` (no attribute of `self` is
assigned). -/
def QuantizeConv.forwardS (l : QuantizeConv) (input : List (List (List ℚ))) :
    Except String (List (List (List ℚ))) × QuantizeConv :=
  (l.forward input, l)

/-- Optimizer step on the conv weight. -/
def QuantizeConv.setWeight (l : QuantizeConv) (w : List (List (List ℚ))) :
    QuantizeConv :=
  { l with weight := w }

/-! ### Floating-point special values

The quantizers divide by data-dependent reductions (`max_input`,
`mask.sum()`); on degenerate inputs the division is by zero and the real
(IEEE-754) execution produces `inf`/`nan`, which the exact `ℚ` model cannot
express.  `FP` is the value domain of a float — an exact finite value or a
special value — with the IEEE rules for the operations the source uses.
(The model identifies `-0.0` with `0.0`; the two compare equal in IEEE and
the distinction never matters on the paths proved below.) -/

inductive FP where
  | fin : ℚ → FP
  | pinf : FP
  | ninf : FP
  | nan : FP
deriving DecidableEq

/-- IEEE `<` : any comparison with `nan` is false. -/
def FP.lt : FP → FP → Bool
  | .fin a, .fin b => decide (a < b)
  | .fin _, .pinf => true
  | .ninf, .fin _ => true
  | .ninf, .pinf => true
  | _, _ => false

/-- IEEE negation. -/
def FP.neg : FP → FP
  | .fin a => .fin (-a)
  | .pinf => .ninf
  | .ninf => .pinf
  | .nan => .nan

/-- IEEE absolute value. -/
def FP.abs : FP → FP
  | .fin a => .fin |a|
  | .pinf => .pinf
  | .ninf => .pinf
  | .nan => .nan

/-- `torch.maximum` semantics: propagate `nan`, otherwise the larger value. -/
def FP.maxv : FP → FP → FP
  | .nan, _ => .nan
  | _, .nan => .nan
  | .pinf, _ => .pinf
  | _, .pinf => .pinf
  | .ninf, b => b
  | a, .ninf => a
  | .fin a, .fin b => .fin (max a b)

/-- `torch.minimum` semantics: propagate `nan`, otherwise the smaller value. -/
def FP.minv : FP → FP → FP
  | .nan, _ => .nan
  | _, .nan => .nan
  | .ninf, _ => .ninf
  | _, .ninf => .ninf
  | .pinf, b => b
  | a, .pinf => a
  | .fin a, .fin b => .fin (min a b)

/-- IEEE addition: `inf + (-inf) = nan`. -/
def FP.add : FP → FP → FP
  | .nan, _ => .nan
  | _, .nan => .nan
  | .fin a, .fin b => .fin (a + b)
  | .pinf, .ninf => .nan
  | .ninf, .pinf => .nan
  | .pinf, _ => .pinf
  | _, .pinf => .pinf
  | .ninf, _ => .ninf
  | _, .ninf => .ninf

/-- IEEE subtraction. -/
def FP.sub (a b : FP) : FP := a.add b.neg

/-- IEEE multiplication: `0 * inf = nan`. -/
def FP.mul : FP → FP → FP
  | .nan, _ => .nan
  | _, .nan => .nan
  | .fin a, .fin b => .fin (a * b)
  | .fin a, .pinf => if a = 0 then .nan else if 0 < a then .pinf else .ninf
  | .fin a, .ninf => if a = 0 then .nan else if 0 < a then .ninf else .pinf
  | .pinf, .fin b => if b = 0 then .nan else if 0 < b then .pinf else .ninf
  | .ninf, .fin b => if b = 0 then .nan else if 0 < b then .ninf else .pinf
  | .pinf, .pinf => .pinf
  | .pinf, .ninf => .ninf
  | .ninf, .pinf => .ninf
  | .ninf, .ninf => .pinf

/-- IEEE division: `x / 0 = ±inf` for `x ≠ 0`, `0 / 0 = nan`,
`inf / inf = nan`, `finite / inf = 0`. -/
def FP.div : FP → FP → FP
  | .nan, _ => .nan
  | _, .nan => .nan
  | .fin a, .fin b =>
    if b = 0 then (if a = 0 then .nan else if 0 < a then .pinf else .ninf)
    else .fin (a / b)
  | .fin _, .pinf => .fin 0
  | .fin _, .ninf => .fin 0
  | .pinf, .fin b => if 0 ≤ b then .pinf else .ninf
  | .ninf, .fin b => if 0 ≤ b then .ninf else .pinf
  | _, _ => .nan

/-- `torch.round` on a float: specials are fixed points, finite values round
half to even. -/
def FP.round : FP → FP
  | .fin a => .fin ((rndEven a : ℤ) : ℚ)
  | .pinf => .pinf
  | .ninf => .ninf
  | .nan => .nan

/-- `torch.max(torch.abs(t))` in the float domain. -/
def maxAbsFP (xs : List FP) : FP :=
  xs.foldl (fun a x => FP.maxv a x.abs) (FP.fin 0)

/-- `torch.clamp` in the float domain. -/
def clampFP (lo hi x : FP) : FP := FP.minv (FP.maxv x lo) hi

/-- Sum reduction in the float domain. -/
def sumFP (xs : List FP) : FP := xs.foldl FP.add (FP.fin 0)

/-- `SymQuantizer.forward`, `layerwise=True`, executed in the float domain:
the same source lines as `symLayerwise`, keeping track of `inf`/`nan`. -/
def symLayerwiseFP (lo hi : FP) (numBits : ℕ) (xs : List FP) : List FP :=
  (xs.map (clampFP lo hi)).map (fun x =>
    (FP.round (x.mul (FP.div (FP.fin ((2 : ℚ) ^ (numBits - 1) - 1))
      (maxAbsFP (xs.map (clampFP lo hi)))))).div
      (FP.div (FP.fin ((2 : ℚ) ^ (numBits - 1) - 1))
        (maxAbsFP (xs.map (clampFP lo hi)))))

/-- The `where`-clamp of `TwnQuantizer.forward` in the float domain. -/
def twnClampFP (lo hi x : FP) : FP :=
  let a := if x.lt hi then x else hi
  if lo.lt a then a else lo

/-- `TwnQuantizer.forward`, `layerwise=True`, executed in the float domain:
the same source lines as `twnLayerwise`, keeping track of `inf`/`nan`. -/
def twnLayerwiseFP (lo hi : FP) (xs : List FP) : List FP :=
  let cl := xs.map (twnClampFP lo hi)
  let t := (FP.fin (7 / 10)).mul
    ((sumFP (cl.map FP.abs)).div (FP.fin ((cl.length : ℕ) : ℚ)))
  let a := (sumFP ((List.zipWith FP.mul
      (cl.map (fun x => if t.lt x.abs then FP.fin 1 else FP.fin 0)) cl).map
        FP.abs)).div
    (sumFP (cl.map (fun x => if t.lt x.abs then FP.fin 1 else FP.fin 0)))
  cl.map (fun x =>
    (a.mul (if t.lt x then FP.fin 1 else FP.fin 0)).sub
      (a.mul (if x.lt t.neg then FP.fin 1 else FP.fin 0)))

/-! ### C4: forward with activation quantization disabled -/

/-- C4: the claim (and the spec) say that with `quantize_act=False` the
forward call succeeds and delegates to the dense / convolution primitive on
the unquantized activation.  The code disagrees: `__init__` creates
`self.act_quantizer`, `self.act_clip_val` and `self.input_bits` only when
`quantize_act=True`, yet `forward` accesses them unconditionally, so a
layer built with `quantize_act=False` raises `AttributeError` on every
forward call.  This theorem evaluates the embedded forward of both
`QuantizeLinear` and `QuantizeConv` at such a layer. -/
theorem quantize_act_false_forward_fails :
    QuantizeLinear.forward (QuantizeLinear.init [[1]] none false 8 2 (5/2)) [[1]]
      = .error "AttributeError: QuantizeLinear object has no attribute act_quantizer"
    ∧ QuantizeConv.forward (QuantizeConv.init [[[1]]] none 1 0 false 8 2 (5/2)) [[[1]]]
      = .error "AttributeError: QuantizeConv object has no attribute act_quantizer" :=
  ⟨rfl, rfl⟩

/-! ### C8: the two backward rules are the same function -/

/-- C8: `TwnQuantizer.backward` and `SymQuantizer.backward` are extensionally
equal — the same straight-through clipping mask on the saved pre-clamp
input, and `None` gradients for `clip_val`, `num_bits` and `layerwise`. -/
theorem twn_backward_eq_sym_backward :
    TwnQuantizer.backward = SymQuantizer.backward
    ∧ ∀ (input : List ℚ) (clip : ℚ × ℚ) (g : List ℚ),
        TwnQuantizer.backward input clip g
          = (SymQuantizer.steMask clip.1 clip.2 input g, none, none, none) :=
  ⟨rfl, fun _ _ _ => rfl⟩

/-! ### C10: the ternary quantizer ignores `num_bits` -/

/-- C10: `TwnQuantizer.forward` accepts `num_bits` but never uses it — two
forward calls differing only in `num_bits` return identical outputs and save
identical contexts for backward (so the backward results are identical too);
`TwnQuantizer.backward` itself takes no `num_bits` at all. -/
theorem twn_forward_ignores_numbits :
    ∀ (input : List (List ℚ)) (clip : ℚ × ℚ) (b1 b2 : ℕ) (lw : Bool),
      TwnQuantizer.forward input clip b1 lw = TwnQuantizer.forward input clip b2 lw
      ∧ TwnQuantizer.savedCtx input clip b1 lw = TwnQuantizer.savedCtx input clip b2 lw :=
  fun _ _ _ _ _ => ⟨rfl, rfl⟩

/-! ### C9: forward calls are pure and quantization is recomputed -/

/-- C9: for each quantized layer, the state-passing forward returns the layer
state unchanged (weights, bias and clip buffers are not mutated), and a
forward call leaves nothing behind: updating the weight after a call and
calling again gives exactly the output of a layer that never ran the first
call — the quantized weight is recomputed from the current full-precision
weight on every call, never cached. -/
theorem quantized_layers_forward_pure :
    (∀ (l : QuantizeLinear) (x : List (List ℚ)) (w : List (List ℚ)),
      (l.forwardS x).2 = l
      ∧ (((l.forwardS x).2.setWeight w).forwardS x).1
          = ((l.setWeight w).forwardS x).1)
    ∧ (∀ (l : QuantizeEmbedding) (x : List ℕ) (w : List (List ℚ)),
      (l.forwardS x).2 = l
      ∧ (((l.forwardS x).2.setWeight w).forwardS x).1
          = ((l.setWeight w).forwardS x).1)
    ∧ (∀ (l : QuantizeConv) (x : List (List (List ℚ))) (w : List (List (List ℚ))),
      (l.forwardS x).2 = l
      ∧ (((l.forwardS x).2.setWeight w).forwardS x).1
          = ((l.setWeight w).forwardS x).1) :=
  ⟨fun _ _ _ => ⟨rfl, rfl⟩, fun _ _ _ => ⟨rfl, rfl⟩, fun _ _ _ => ⟨rfl, rfl⟩⟩

/-! ### Helper lemmas -/

theorem rndEven_eq_floor_or (q : ℚ) : rndEven q = ⌊q⌋ ∨ rndEven q = ⌊q⌋ + 1 := by
  unfold rndEven
  split_ifs <;> simp

theorem abs_rndEven_sub_le (q : ℚ) : |(rndEven q : ℚ) - q| ≤ 1 / 2 := by
  have hfl : (⌊q⌋ : ℚ) ≤ q := Int.floor_le q
  have hlt : q < ⌊q⌋ + 1 := Int.lt_floor_add_one q
  unfold rndEven
  split_ifs with h1 h2 h3 <;> rw [abs_le] <;> push_cast <;>
    constructor <;> linarith

theorem rndEven_nearest (q : ℚ) (k : ℤ) :
    |(rndEven q : ℚ) - q| ≤ |(k : ℚ) - q| := by
  have hfl : (⌊q⌋ : ℚ) ≤ q := Int.floor_le q
  have hlt : q < ⌊q⌋ + 1 := Int.lt_floor_add_one q
  have hk1 : (k : ℚ) - q ≤ |(k : ℚ) - q| := le_abs_self _
  have hk2 : q - (k : ℚ) ≤ |(k : ℚ) - q| := by
    rw [abs_sub_comm]; exact le_abs_self _
  rcases le_or_lt k ⌊q⌋ with hk | hk
  · have hkq : (k : ℚ) ≤ (⌊q⌋ : ℚ) := by exact_mod_cast hk
    unfold rndEven
    split_ifs with h1 h2 h3 <;> rw [abs_le] <;> push_cast <;>
      constructor <;> linarith
  · have hkq : (⌊q⌋ : ℚ) + 1 ≤ (k : ℚ) := by exact_mod_cast hk
    unfold rndEven
    split_ifs with h1 h2 h3 <;> rw [abs_le] <;> push_cast <;>
      constructor <;> linarith

theorem le_foldl_maxAbs (xs : List ℚ) (a : ℚ) :
    a ≤ xs.foldl (fun v x => max v |x|) a := by
  induction xs generalizing a with
  | nil => exact le_refl a
  | cons y ys ih =>
    exact le_trans (le_max_left a |y|) (ih (max a |y|))

theorem abs_le_foldl_maxAbs (xs : List ℚ) :
    ∀ (a x : ℚ), x ∈ xs → |x| ≤ xs.foldl (fun v z => max v |z|) a := by
  induction xs with
  | nil => intro a x hx; cases hx
  | cons y ys ih =>
    intro a x hx
    rcases List.mem_cons.mp hx with rfl | hmem
    · exact le_trans (le_max_right a |x|) (le_foldl_maxAbs ys (max a |x|))
    · exact ih (max a |y|) x hmem

theorem abs_le_maxAbs {xs : List ℚ} {x : ℚ} (hx : x ∈ xs) : |x| ≤ maxAbs xs :=
  abs_le_foldl_maxAbs xs 0 x hx

theorem clampC_mem_Icc {lo hi : ℚ} (h : lo ≤ hi) (x : ℚ) :
    lo ≤ clampC lo hi x ∧ clampC lo hi x ≤ hi :=
  ⟨le_min (le_max_right x lo) h, min_le_right _ _⟩

theorem twnClampW_mem_Icc {lo hi : ℚ} (h : lo ≤ hi) (x : ℚ) :
    lo ≤ twnClampW lo hi x ∧ twnClampW lo hi x ≤ hi := by
  simp only [twnClampW]
  split_ifs <;> constructor <;> linarith

theorem twnClampW_eq_self {lo hi x : ℚ} (h1 : lo ≤ x) (h2 : x ≤ hi) :
    twnClampW lo hi x = x := by
  simp only [twnClampW]
  split_ifs <;> linarith

/-! ### C1: symmetric layerwise quantization hits the representable grid -/

/-- C1 (amended): for `2 ≤ num_bits` and a clamped input whose maximal
absolute value is positive, `SymQuantizer.forward` with `layerwise=True`
maps each element to the round-to-nearest point of the grid
`{k / s : |k| ≤ 2^(b-1)-1}` with `s = (2^(b-1)-1) / max |clamped|`:
the output is the element-wise quantization of the clamp, each output
element is a grid point, and it is at least as close to the clamped element
as any other grid point.  (As stated — for every bit width `b ≥ 1` and every
input — the claim fails: see the counterexample for the `b = 1` and all-zero
degenerate cases, where the real execution divides by zero.) -/
theorem sym_layerwise_grid_round (lo hi : ℚ) (numBits : ℕ) (xs : List ℚ)
    (hb : 2 ≤ numBits)
    (hmax : 0 < maxAbs (xs.map (clampC lo hi))) :
    symLayerwise lo hi numBits xs
      = xs.map (fun x =>
          symQuantElem (symScale numBits (xs.map (clampC lo hi))) (clampC lo hi x))
    ∧ ∀ x ∈ xs,
      (∃ k : ℤ, |k| ≤ 2 ^ (numBits - 1) - 1 ∧
        symQuantElem (symScale numBits (xs.map (clampC lo hi))) (clampC lo hi x)
          = (k : ℚ) / symScale numBits (xs.map (clampC lo hi)))
      ∧ ∀ k : ℤ, |k| ≤ 2 ^ (numBits - 1) - 1 →
        |symQuantElem (symScale numBits (xs.map (clampC lo hi))) (clampC lo hi x)
            - clampC lo hi x|
          ≤ |(k : ℚ) / symScale numBits (xs.map (clampC lo hi)) - clampC lo hi x| := by
  have hM : (2 : ℚ) ≤ 2 ^ (numBits - 1) := by
    calc (2 : ℚ) = 2 ^ 1 := (pow_one 2).symm
    _ ≤ 2 ^ (numBits - 1) := by
      apply pow_le_pow_right₀ one_le_two
      omega
  have hMpos : (0 : ℚ) < 2 ^ (numBits - 1) - 1 := by linarith
  have hspos : 0 < symScale numBits (xs.map (clampC lo hi)) :=
    div_pos hMpos hmax
  constructor
  · simp [symLayerwise, symQuantList, List.map_map]
  · intro x hx
    have hcl : clampC lo hi x ∈ xs.map (clampC lo hi) :=
      List.mem_map_of_mem (clampC lo hi) hx
    have hcA : |clampC lo hi x| ≤ maxAbs (xs.map (clampC lo hi)) :=
      abs_le_maxAbs hcl
    have hAs : maxAbs (xs.map (clampC lo hi)) * symScale numBits (xs.map (clampC lo hi))
        = 2 ^ (numBits - 1) - 1 := by
      unfold symScale
      rw [mul_comm, div_mul_cancel₀ _ (ne_of_gt hmax)]
    have hcsM : |clampC lo hi x * symScale numBits (xs.map (clampC lo hi))|
        ≤ 2 ^ (numBits - 1) - 1 := by
      rw [abs_mul, abs_of_pos hspos]
      calc |clampC lo hi x| * symScale numBits (xs.map (clampC lo hi))
          ≤ maxAbs (xs.map (clampC lo hi)) * symScale numBits (xs.map (clampC lo hi)) :=
            mul_le_mul_of_nonneg_right hcA hspos.le
      _ = 2 ^ (numBits - 1) - 1 := hAs
    have hround := abs_rndEven_sub_le
      (clampC lo hi x * symScale numBits (xs.map (clampC lo hi)))
    have hkabs : |((rndEven (clampC lo hi x * symScale numBits (xs.map (clampC lo hi)))
        : ℤ) : ℚ)| ≤ (2 ^ (numBits - 1) - 1) + 1 / 2 := by
      have htr := abs_add
        (((rndEven (clampC lo hi x * symScale numBits (xs.map (clampC lo hi))) : ℤ) : ℚ)
          - clampC lo hi x * symScale numBits (xs.map (clampC lo hi)))
        (clampC lo hi x * symScale numBits (xs.map (clampC lo hi)))
      rw [sub_add_cancel] at htr
      linarith
    have hkM : |rndEven (clampC lo hi x * symScale numBits (xs.map (clampC lo hi)))|
        ≤ 2 ^ (numBits - 1) - 1 := by
      by_contra hcon
      push_neg at hcon
      have h1 : (2 : ℤ) ^ (numBits - 1) - 1 + 1
          ≤ |rndEven (clampC lo hi x * symScale numBits (xs.map (clampC lo hi)))| :=
        Int.lt_iff_add_one_le.mp hcon
      have h2 : ((2 : ℚ) ^ (numBits - 1) - 1) + 1
          ≤ |((rndEven (clampC lo hi x * symScale numBits (xs.map (clampC lo hi)))
              : ℤ) : ℚ)| := by
        exact_mod_cast h1
      linarith
    refine ⟨⟨rndEven (clampC lo hi x * symScale numBits (xs.map (clampC lo hi))),
      hkM, rfl⟩, ?_⟩
    intro k hk
    have hrw : ∀ z : ℤ, (z : ℚ) / symScale numBits (xs.map (clampC lo hi))
        - clampC lo hi x
        = ((z : ℚ) - clampC lo hi x * symScale numBits (xs.map (clampC lo hi)))
          / symScale numBits (xs.map (clampC lo hi)) := by
      intro z
      field_simp
      ring
    unfold symQuantElem
    rw [hrw, hrw, abs_div, abs_div, abs_of_pos hspos]
    exact (div_le_div_iff_of_pos_right hspos).mpr (rndEven_nearest _ k)

/-- Witness for C1's amended theorem at `num_bits = 8`, input `[7/4]`,
clip range `(-5/2, 5/2)`. -/
theorem sym_layerwise_grid_round_witness :
    2 ≤ 8 ∧ 0 < maxAbs (([7/4] : List ℚ).map (clampC (-(5/2)) (5/2)))
    ∧ (symLayerwise (-(5/2)) (5/2) 8 [7/4]
        = ([7/4] : List ℚ).map (fun x =>
            symQuantElem (symScale 8 (([7/4] : List ℚ).map (clampC (-(5/2)) (5/2))))
              (clampC (-(5/2)) (5/2) x))
      ∧ ∀ x ∈ ([7/4] : List ℚ),
        (∃ k : ℤ, |k| ≤ 2 ^ (8 - 1) - 1 ∧
          symQuantElem (symScale 8 (([7/4] : List ℚ).map (clampC (-(5/2)) (5/2))))
            (clampC (-(5/2)) (5/2) x)
            = (k : ℚ) / symScale 8 (([7/4] : List ℚ).map (clampC (-(5/2)) (5/2))))
        ∧ ∀ k : ℤ, |k| ≤ 2 ^ (8 - 1) - 1 →
          |symQuantElem (symScale 8 (([7/4] : List ℚ).map (clampC (-(5/2)) (5/2))))
              (clampC (-(5/2)) (5/2) x)
              - clampC (-(5/2)) (5/2) x|
            ≤ |(k : ℚ) / symScale 8 (([7/4] : List ℚ).map (clampC (-(5/2)) (5/2)))
                - clampC (-(5/2)) (5/2) x|) :=
  ⟨by norm_num,
    by norm_num [maxAbs, clampC, abs_eq_max_neg, max_def, min_def],
    sym_layerwise_grid_round (-(5/2)) (5/2) 8 [7/4] (by norm_num)
      (by norm_num [maxAbs, clampC, abs_eq_max_neg, max_def, min_def])⟩

/-- Counterexample to C1 as stated: the claim quantifies over every bit
width `b ≥ 1` and every input.  At `num_bits = 1` the scale is
`s = (2^0 - 1)/max = 0` and the real execution computes `round(x*0)/0 =
0/0 = nan`; on an all-zero input (any bit width) it computes `s = M/0 = inf`
and `0 * inf = nan`.  In both cases the output element is `nan`, which is
not a grid point and in particular differs from the claimed value `0`. -/
theorem sym_layerwise_grid_round_cex :
    symLayerwiseFP (FP.fin (-(5/2))) (FP.fin (5/2)) 1 [FP.fin 1] = [FP.nan]
    ∧ symLayerwiseFP (FP.fin (-(5/2))) (FP.fin (5/2)) 8 [FP.fin 0, FP.fin 0, FP.fin 0]
        = [FP.nan, FP.nan, FP.nan]
    ∧ FP.nan ≠ FP.fin 0 := by
  refine ⟨?_, ?_, by decide⟩ <;>
    norm_num [symLayerwiseFP, clampFP, maxAbsFP, FP.minv, FP.maxv, FP.abs, FP.mul,
      FP.div, FP.round, rndEven, max_def, min_def]

/-! ### C5: the unsupported-rank error -/

/-- C5 (amended): the rank check sits in the `else` branch of
`if layerwise:`, so a tensor of more than 4 dimensions makes
`SymQuantizer.forward` raise the unsupported-rank `ValueError` only when
`layerwise=False`; with `layerwise=True` no rank check runs and the call
returns the layerwise-quantized tensor.  (As stated — "regardless of the
layerwise flag" — the claim fails: see the counterexample.) -/
theorem sym_forward_rank (t : Tensor) (clip : ℚ × ℚ) (b : ℕ)
    (h : 4 < t.shape.length) :
    SymQuantizer.forward t clip b false
      = .error ("Unsupported tensor size for quantization. Expected <4 dimensions, got "
          ++ toString t.shape.length ++ ".")
    ∧ SymQuantizer.forward t clip b true
      = .ok ⟨t.shape, symQuantList b (t.data.map (clampC clip.1 clip.2))⟩ := by
  constructor
  · simp only [SymQuantizer.forward, Bool.false_eq_true, if_false]
    rw [if_neg (by omega), if_neg (by omega)]
  · simp [SymQuantizer.forward]

/-- Witness for C5's amended theorem at a concrete 5-dimensional tensor. -/
theorem sym_forward_rank_witness :
    4 < ([2, 1, 1, 1, 1] : List ℕ).length
    ∧ (SymQuantizer.forward ⟨[2, 1, 1, 1, 1], [1, -7]⟩ (-(5/2), 5/2) 8 false
        = .error ("Unsupported tensor size for quantization. Expected <4 dimensions, got "
            ++ toString ([2, 1, 1, 1, 1] : List ℕ).length ++ ".")
      ∧ SymQuantizer.forward ⟨[2, 1, 1, 1, 1], [1, -7]⟩ (-(5/2), 5/2) 8 true
        = .ok ⟨[2, 1, 1, 1, 1],
            symQuantList 8 (([1, -7] : List ℚ).map (clampC (-(5/2)) (5/2)))⟩) :=
  ⟨by norm_num, sym_forward_rank ⟨[2, 1, 1, 1, 1], [1, -7]⟩ (-(5/2), 5/2) 8 (by norm_num)⟩

/-- Counterexample to C5 as stated: a 5-dimensional tensor passed with
`layerwise=True` is processed silently — the forward returns a result
instead of failing. -/
theorem sym_forward_rank_cex :
    SymQuantizer.forward ⟨[1, 1, 1, 1, 1], [1]⟩ (-(5/2), 5/2) 8 true
      = .ok ⟨[1, 1, 1, 1, 1], [1]⟩ := by
  norm_num [SymQuantizer.forward, symQuantList, symQuantElem, symScale, maxAbs,
    clampC, rndEven, abs_eq_max_neg, max_def, min_def]

/-! ### C6: all-zero input -/

theorem maxAbsFP_replicate_zero (n : ℕ) :
    maxAbsFP (List.replicate n (FP.fin 0)) = FP.fin 0 := by
  unfold maxAbsFP
  induction n with
  | zero => rfl
  | succ m ih =>
    rw [List.replicate_succ, List.foldl_cons]
    have hstep : FP.maxv (FP.fin 0) (FP.fin 0).abs = FP.fin 0 := by
      simp [FP.maxv, FP.abs]
    rw [hstep]
    exact ih

theorem sumFP_replicate_zero (n : ℕ) :
    sumFP (List.replicate n (FP.fin 0)) = FP.fin 0 := by
  unfold sumFP
  induction n with
  | zero => rfl
  | succ m ih =>
    rw [List.replicate_succ, List.foldl_cons]
    have hstep : FP.add (FP.fin 0) (FP.fin 0) = FP.fin 0 := by
      simp [FP.add]
    rw [hstep]
    exact ih

/-- C6 (amended): an all-zero input tensor makes both quantizers divide by a
zero reduction — `max |clamp| = 0` for the symmetric quantizer and
`mask.sum() = 0` for the ternary quantizer — and the real (IEEE) execution
returns an all-`nan` tensor, raising no error.  (As stated the claim says
the output is all zeros; see the counterexample.) -/
theorem quantizers_all_zero_input (n : ℕ) (hn : 1 ≤ n) (lo hi : ℚ)
    (hlo : lo < 0) (hhi : 0 < hi) (b : ℕ) (hb : 1 ≤ b) :
    symLayerwiseFP (FP.fin lo) (FP.fin hi) b (List.replicate n (FP.fin 0))
      = List.replicate n FP.nan
    ∧ twnLayerwiseFP (FP.fin lo) (FP.fin hi) (List.replicate n (FP.fin 0))
      = List.replicate n FP.nan := by
  have hclampS : clampFP (FP.fin lo) (FP.fin hi) (FP.fin 0) = FP.fin 0 := by
    simp [clampFP, FP.maxv, FP.minv, max_eq_left hlo.le, min_eq_left hhi.le]
  have hclampT : twnClampFP (FP.fin lo) (FP.fin hi) (FP.fin 0) = FP.fin 0 := by
    simp [twnClampFP, FP.lt, hlo, hhi]
  have hnQ : ((n : ℕ) : ℚ) ≠ 0 := by
    exact_mod_cast Nat.one_le_iff_ne_zero.mp hn
  constructor
  · unfold symLayerwiseFP
    rw [List.map_replicate, hclampS, maxAbsFP_replicate_zero, List.map_replicate]
    have hM : (0 : ℚ) ≤ 2 ^ (b - 1) - 1 := by
      have : (1 : ℚ) ≤ 2 ^ (b - 1) := one_le_pow₀ one_le_two
      linarith
    rcases eq_or_lt_of_le hM with hM0 | hMpos
    · have hs : FP.div (FP.fin ((2 : ℚ) ^ (b - 1) - 1)) (FP.fin 0) = FP.nan := by
        simp [FP.div, ← hM0]
      rw [hs]
      simp [FP.mul, FP.round, FP.div]
    · have hs : FP.div (FP.fin ((2 : ℚ) ^ (b - 1) - 1)) (FP.fin 0) = FP.pinf := by
        simp [FP.div, ne_of_gt hMpos, hMpos]
      rw [hs]
      simp [FP.mul, FP.round, FP.div]
  · unfold twnLayerwiseFP
    have habs : (FP.fin (0 : ℚ)).abs = FP.fin 0 := by simp [FP.abs]
    norm_num [hclampT, habs, hnQ, List.map_replicate, sumFP_replicate_zero,
      List.zipWith_replicate, Nat.min_self, List.length_replicate,
      FP.div, FP.mul, FP.lt, FP.abs, FP.neg, FP.sub, FP.add]

/-- Witness for C6's amended theorem at `n = 2`, clip `(-5/2, 5/2)`,
`num_bits = 8`. -/
theorem quantizers_all_zero_input_witness :
    1 ≤ 2 ∧ (-(5/2) : ℚ) < 0 ∧ (0 : ℚ) < 5/2 ∧ 1 ≤ 8
    ∧ (symLayerwiseFP (FP.fin (-(5/2))) (FP.fin (5/2)) 8 (List.replicate 2 (FP.fin 0))
        = List.replicate 2 FP.nan
      ∧ twnLayerwiseFP (FP.fin (-(5/2))) (FP.fin (5/2)) (List.replicate 2 (FP.fin 0))
        = List.replicate 2 FP.nan) :=
  ⟨by norm_num, by norm_num, by norm_num, by norm_num,
    quantizers_all_zero_input 2 (by norm_num) (-(5/2)) (5/2) (by norm_num)
      (by norm_num) 8 (by norm_num)⟩

/-- Counterexample to C6 as stated: the all-zero input to the symmetric
quantizer produces `nan` elements, not zeros. -/
theorem quantizers_all_zero_input_cex :
    symLayerwiseFP (FP.fin (-(5/2))) (FP.fin (5/2)) 8 [FP.fin 0, FP.fin 0]
      = [FP.nan, FP.nan]
    ∧ FP.nan ≠ FP.fin 0 := by
  refine ⟨?_, by decide⟩
  norm_num [symLayerwiseFP, clampFP, maxAbsFP, FP.minv, FP.maxv, FP.abs, FP.mul,
    FP.div, FP.round, rndEven, max_def, min_def]

/-! ### Intermediate values of the ternary layerwise branch -/

/-- The clamped input of `TwnQuantizer.forward` (q_layers.py lines 73-74). -/
def twnClamped (lo hi : ℚ) (xs : List ℚ) : List ℚ := xs.map (twnClampW lo hi)

/-- The threshold computed by the layerwise branch. -/
def twnThresL (lo hi : ℚ) (xs : List ℚ) : ℚ :=
  twnThres (((twnClamped lo hi xs).length : ℕ) : ℚ) (twnClamped lo hi xs)

/-- The `alpha` computed by the layerwise branch. -/
def twnAlphaL (lo hi : ℚ) (xs : List ℚ) : ℚ :=
  twnAlpha (twnThresL lo hi xs) (twnClamped lo hi xs)

theorem sum_abs_nonneg (xs : List ℚ) (f : ℚ → ℚ) :
    0 ≤ (xs.map (fun x => |f x|)).sum := by
  apply List.sum_nonneg
  intro a ha
  rcases List.mem_map.mp ha with ⟨x, _, rfl⟩
  exact abs_nonneg _

theorem sum_maskInd_nonneg (t : ℚ) (xs : List ℚ) :
    0 ≤ (xs.map (twnMaskInd t)).sum := by
  apply List.sum_nonneg
  intro a ha
  rcases List.mem_map.mp ha with ⟨x, _, rfl⟩
  unfold twnMaskInd
  split_ifs <;> norm_num

theorem twnThres_nonneg (n : ℕ) (xs : List ℚ) : 0 ≤ twnThres (n : ℚ) xs := by
  unfold twnThres meanAbs
  have h1 : 0 ≤ (xs.map (fun x => |x|)).sum := sum_abs_nonneg xs id
  positivity

theorem twnThresL_nonneg (lo hi : ℚ) (xs : List ℚ) : 0 ≤ twnThresL lo hi xs :=
  twnThres_nonneg _ _

theorem twnAlpha_nonneg (t : ℚ) (xs : List ℚ) : 0 ≤ twnAlpha t xs :=
  div_nonneg (sum_abs_nonneg xs _) (sum_maskInd_nonneg t xs)

theorem filter_abs_sum (t : ℚ) (xs : List ℚ) :
    ((xs.filter (fun z => decide (t < |z|))).map (fun z => |z|)).sum
      = (xs.map (fun x => |twnMaskInd t x * x|)).sum := by
  induction xs with
  | nil => simp
  | cons y ys ih =>
    by_cases h : t < |y|
    · simp [List.filter_cons, h, twnMaskInd, ih]
    · simp [List.filter_cons, h, twnMaskInd, ih]

theorem filter_count_sum (t : ℚ) (xs : List ℚ) :
    (((xs.filter (fun z => decide (t < |z|))).length : ℕ) : ℚ)
      = (xs.map (twnMaskInd t)).sum := by
  induction xs with
  | nil => simp
  | cons y ys ih =>
    by_cases h : t < |y|
    · simp [List.filter_cons, h, twnMaskInd, ← ih]
      push_cast
      ring
    · simp [List.filter_cons, h, twnMaskInd, ← ih]

/-! ### C3: ternary layerwise output is three-valued -/

/-- C3 (amended): for `low < high` and an input whose clamp is not
identically zero, the layerwise `TwnQuantizer.forward` output is the
element-wise map sending a clamped element above `thres = 0.7 * mean |clamp|`
to `+alpha`, below `-thres` to `-alpha`, and anything else to `0`, where
`alpha ≥ 0` is the mean absolute value of the clamped elements whose
absolute value exceeds `thres`.  (As stated — for every input — the claim
fails on inputs clamping to all zeros, where the real execution computes
`alpha = 0/0 = nan`: see the counterexample.) -/
theorem twn_layerwise_ternary (lo hi : ℚ) (xs : List ℚ) (hlh : lo < hi)
    (hnz : ∃ z ∈ twnClamped lo hi xs, z ≠ 0) :
    0 ≤ twnAlphaL lo hi xs
    ∧ twnLayerwise lo hi xs
        = (twnClamped lo hi xs).map
            (twnOut (twnThresL lo hi xs) (twnAlphaL lo hi xs))
    ∧ twnAlphaL lo hi xs
        = (((twnClamped lo hi xs).filter
              (fun z => decide (twnThresL lo hi xs < |z|))).map (fun z => |z|)).sum
          / ((((twnClamped lo hi xs).filter
              (fun z => decide (twnThresL lo hi xs < |z|))).length : ℕ) : ℚ)
    ∧ ∀ z ∈ twnClamped lo hi xs,
        (twnThresL lo hi xs < z →
          twnOut (twnThresL lo hi xs) (twnAlphaL lo hi xs) z = twnAlphaL lo hi xs)
        ∧ (z < -twnThresL lo hi xs →
          twnOut (twnThresL lo hi xs) (twnAlphaL lo hi xs) z = -twnAlphaL lo hi xs)
        ∧ (¬twnThresL lo hi xs < z → ¬z < -twnThresL lo hi xs →
          twnOut (twnThresL lo hi xs) (twnAlphaL lo hi xs) z = 0)
        ∧ (twnOut (twnThresL lo hi xs) (twnAlphaL lo hi xs) z = twnAlphaL lo hi xs
          ∨ twnOut (twnThresL lo hi xs) (twnAlphaL lo hi xs) z = -twnAlphaL lo hi xs
          ∨ twnOut (twnThresL lo hi xs) (twnAlphaL lo hi xs) z = 0) := by
  have hT : 0 ≤ twnThresL lo hi xs := twnThresL_nonneg lo hi xs
  refine ⟨twnAlpha_nonneg _ _, rfl, ?_, ?_⟩
  · unfold twnAlphaL twnAlpha
    rw [filter_abs_sum, filter_count_sum]
  · intro z hz
    refine ⟨?_, ?_, ?_, ?_⟩
    · intro h
      have hn : ¬z < -twnThresL lo hi xs := by
        intro hc
        have : twnThresL lo hi xs < -twnThresL lo hi xs := lt_trans h hc
        linarith
      unfold twnOut
      rw [if_pos h, if_neg hn]
      ring
    · intro h
      have hp : ¬twnThresL lo hi xs < z := by
        intro hc
        have : twnThresL lo hi xs < -twnThresL lo hi xs := lt_trans hc h
        linarith
      unfold twnOut
      rw [if_neg hp, if_pos h]
      ring
    · intro hp hn
      unfold twnOut
      rw [if_neg hp, if_neg hn]
      ring
    · by_cases hp : twnThresL lo hi xs < z
      · left
        have hn : ¬z < -twnThresL lo hi xs := by
          intro hc
          have : twnThresL lo hi xs < -twnThresL lo hi xs := lt_trans hp hc
          linarith
        unfold twnOut
        rw [if_pos hp, if_neg hn]
        ring
      · by_cases hn : z < -twnThresL lo hi xs
        · right; left
          unfold twnOut
          rw [if_neg hp, if_pos hn]
          ring
        · right; right
          unfold twnOut
          rw [if_neg hp, if_neg hn]
          ring

/-- Witness for C3's amended theorem at input `[1]`, clip `(-5/2, 5/2)`. -/
theorem twn_layerwise_ternary_witness :
    (-(5/2) : ℚ) < 5/2
    ∧ (∃ z ∈ twnClamped (-(5/2)) (5/2) [1], z ≠ 0)
    ∧ (0 ≤ twnAlphaL (-(5/2)) (5/2) [1]
    ∧ twnLayerwise (-(5/2)) (5/2) [1]
        = (twnClamped (-(5/2)) (5/2) [1]).map
            (twnOut (twnThresL (-(5/2)) (5/2) [1]) (twnAlphaL (-(5/2)) (5/2) [1]))
    ∧ twnAlphaL (-(5/2)) (5/2) [1]
        = (((twnClamped (-(5/2)) (5/2) [1]).filter
              (fun z => decide (twnThresL (-(5/2)) (5/2) [1] < |z|))).map (fun z => |z|)).sum
          / ((((twnClamped (-(5/2)) (5/2) [1]).filter
              (fun z => decide (twnThresL (-(5/2)) (5/2) [1] < |z|))).length : ℕ) : ℚ)
    ∧ ∀ z ∈ twnClamped (-(5/2)) (5/2) [1],
        (twnThresL (-(5/2)) (5/2) [1] < z →
          twnOut (twnThresL (-(5/2)) (5/2) [1]) (twnAlphaL (-(5/2)) (5/2) [1]) z
            = twnAlphaL (-(5/2)) (5/2) [1])
        ∧ (z < -twnThresL (-(5/2)) (5/2) [1] →
          twnOut (twnThresL (-(5/2)) (5/2) [1]) (twnAlphaL (-(5/2)) (5/2) [1]) z
            = -twnAlphaL (-(5/2)) (5/2) [1])
        ∧ (¬twnThresL (-(5/2)) (5/2) [1] < z → ¬z < -twnThresL (-(5/2)) (5/2) [1] →
          twnOut (twnThresL (-(5/2)) (5/2) [1]) (twnAlphaL (-(5/2)) (5/2) [1]) z = 0)
        ∧ (twnOut (twnThresL (-(5/2)) (5/2) [1]) (twnAlphaL (-(5/2)) (5/2) [1]) z
            = twnAlphaL (-(5/2)) (5/2) [1]
          ∨ twnOut (twnThresL (-(5/2)) (5/2) [1]) (twnAlphaL (-(5/2)) (5/2) [1]) z
            = -twnAlphaL (-(5/2)) (5/2) [1]
          ∨ twnOut (twnThresL (-(5/2)) (5/2) [1]) (twnAlphaL (-(5/2)) (5/2) [1]) z
            = 0)) :=
  ⟨by norm_num,
    ⟨1, by norm_num [twnClamped, twnClampW], by norm_num⟩,
    twn_layerwise_ternary (-(5/2)) (5/2) [1] (by norm_num)
      ⟨1, by norm_num [twnClamped, twnClampW], by norm_num⟩⟩

/-- Counterexample to C3 as stated: on the all-zero input the mask sum is
zero, the real execution computes `alpha = 0/0 = nan`, and every output
element is `nan` — not `+alpha`, `-alpha` or `0` for any real `alpha`. -/
theorem twn_layerwise_ternary_cex :
    twnLayerwiseFP (FP.fin (-(5/2))) (FP.fin (5/2)) [FP.fin 0, FP.fin 0, FP.fin 0]
      = [FP.nan, FP.nan, FP.nan]
    ∧ FP.nan ≠ FP.fin 0 := by
  refine ⟨?_, by decide⟩
  norm_num [twnLayerwiseFP, twnClampFP, sumFP, FP.lt, FP.abs, FP.mul, FP.div, FP.add,
    FP.sub, FP.neg, max_def, min_def]

/-! ### C7: idempotence of the ternary layerwise quantizer -/

theorem twnOut_eq_pos {t a z : ℚ} (ht : 0 ≤ t) (h : t < z) : twnOut t a z = a := by
  unfold twnOut
  rw [if_pos h, if_neg (by linarith : ¬z < -t)]
  ring

theorem twnOut_eq_neg {t a z : ℚ} (ht : 0 ≤ t) (h : z < -t) : twnOut t a z = -a := by
  unfold twnOut
  rw [if_neg (by linarith : ¬t < z), if_pos h]
  ring

theorem twnOut_eq_zero {t a z : ℚ} (h1 : ¬t < z) (h2 : ¬z < -t) : twnOut t a z = 0 := by
  unfold twnOut
  rw [if_neg h1, if_neg h2]
  ring

theorem twnOut_abs {t a z : ℚ} (ht : 0 ≤ t) (ha : 0 < a) :
    |twnOut t a z| = a * twnMaskInd t z := by
  unfold twnMaskInd
  by_cases h : t < |z|
  · rw [if_pos h, mul_one]
    rcases lt_or_le t z with hp | hp
    · rw [twnOut_eq_pos ht hp, abs_of_pos ha]
    · have hn : z < -t := by
        rcases abs_cases z with ⟨he, _⟩ | ⟨he, _⟩
        · linarith [he ▸ h]
        · linarith [he ▸ h]
      rw [twnOut_eq_neg ht hn, abs_neg, abs_of_pos ha]
  · rw [if_neg h, mul_zero]
    have hb := abs_le.mp (le_of_not_lt h)
    rw [twnOut_eq_zero (by linarith [hb.2] : ¬t < z) (by linarith [hb.1] : ¬z < -t),
      abs_zero]

theorem sum_map_const_mul (a : ℚ) (f : ℚ → ℚ) (xs : List ℚ) :
    (xs.map (fun x => a * f x)).sum = a * (xs.map f).sum := by
  induction xs with
  | nil => simp
  | cons y ys ih => simp [ih, mul_add]

/-- If some clamped element is nonzero, some clamped element strictly exceeds
the threshold `0.7 * mean |clamp|` (otherwise the mean would be at most 0.7
times itself). -/
theorem exists_gt_thres (cl : List ℚ) (hnz : ∃ z ∈ cl, z ≠ 0) :
    ∃ z ∈ cl, twnThres ((cl.length : ℕ) : ℚ) cl < |z| := by
  by_contra hcon
  push_neg at hcon
  obtain ⟨z₀, hz₀m, hz₀⟩ := hnz
  have hn1 : 1 ≤ cl.length := List.length_pos.mpr (List.ne_nil_of_mem hz₀m)
  have hne : ((cl.length : ℕ) : ℚ) ≠ 0 := by
    have : (0 : ℚ) < cl.length := by exact_mod_cast hn1
    exact ne_of_gt this
  have hSnn : 0 ≤ (cl.map (fun x => |x|)).sum := sum_abs_nonneg cl id
  have hST : (cl.map (fun x => |x|)).sum
      ≤ ((cl.length : ℕ) : ℚ) * twnThres ((cl.length : ℕ) : ℚ) cl := by
    have h1 : ∀ x ∈ cl.map (fun x => |x|), x ≤ twnThres ((cl.length : ℕ) : ℚ) cl := by
      intro x hx
      rcases List.mem_map.mp hx with ⟨z, hzm, rfl⟩
      exact hcon z hzm
    have h2 := List.sum_le_card_nsmul (cl.map (fun x => |x|))
      (twnThres ((cl.length : ℕ) : ℚ) cl) h1
    rw [List.length_map, nsmul_eq_mul] at h2
    exact h2
  have hred : ((cl.length : ℕ) : ℚ) * twnThres ((cl.length : ℕ) : ℚ) cl
      = 7/10 * (cl.map (fun x => |x|)).sum := by
    unfold twnThres meanAbs
    field_simp
    ring
  rw [hred] at hST
  have hS0 : (cl.map (fun x => |x|)).sum = 0 := by linarith
  have hmem : |z₀| ∈ cl.map (fun x => |x|) := List.mem_map_of_mem _ hz₀m
  have hle : |z₀| ≤ (cl.map (fun x => |x|)).sum := by
    apply List.single_le_sum ?_ _ hmem
    intro x hx
    rcases List.mem_map.mp hx with ⟨w, _, rfl⟩
    exact abs_nonneg w
  have : |z₀| = 0 := le_antisymm (hS0 ▸ hle) (abs_nonneg z₀)
  exact hz₀ (abs_eq_zero.mp this)

/-- C7 (amended): with a symmetric clip range `(-c, c)` — the shape every
layer wrapper uses — and an input whose clamp is not identically zero,
applying the layerwise ternary quantizer twice returns exactly the output of
the first application.  (As stated — for every clip range with `low < high`
— the claim fails: with an asymmetric range the first output's `+alpha` can
exceed `high`, be re-clamped by the second application, and change `alpha`;
see the counterexample.) -/
theorem twn_layerwise_idempotent (c : ℚ) (hc : 0 < c) (xs : List ℚ)
    (hnz : ∃ z ∈ twnClamped (-c) c xs, z ≠ 0) :
    twnLayerwise (-c) c (twnLayerwise (-c) c xs) = twnLayerwise (-c) c xs := by
  have hcc : -c ≤ c := by linarith
  obtain ⟨z₀, hz₀m, hz₀T⟩ := exists_gt_thres (twnClamped (-c) c xs) hnz
  set cl := twnClamped (-c) c xs with hcldef
  set n : ℚ := ((cl.length : ℕ) : ℚ) with hndef
  set T := twnThres n cl with hTdef
  set A := twnAlpha T cl with hAdef
  set K := (cl.map (twnMaskInd T)).sum with hKdef
  have hbounds : ∀ z ∈ cl, -c ≤ z ∧ z ≤ c := by
    intro z hz
    rcases List.mem_map.mp hz with ⟨x, _, rfl⟩
    exact twnClampW_mem_Icc hcc x
  have hn1 : (1 : ℚ) ≤ n := by
    rw [hndef]
    exact_mod_cast List.length_pos.mpr (List.ne_nil_of_mem hz₀m)
  have hn0 : (0 : ℚ) < n := by linarith
  have hT0 : 0 ≤ T := twnThres_nonneg cl.length cl
  have hz₀mask : twnMaskInd T z₀ = 1 := by
    unfold twnMaskInd
    rw [if_pos hz₀T]
  have hmask_nonneg : ∀ x ∈ cl.map (twnMaskInd T), 0 ≤ x := by
    intro x hx
    rcases List.mem_map.mp hx with ⟨w, _, rfl⟩
    unfold twnMaskInd
    split_ifs <;> norm_num
  have hK1 : (1 : ℚ) ≤ K := by
    have hle := List.single_le_sum hmask_nonneg _
      (List.mem_map_of_mem (twnMaskInd T) hz₀m)
    rw [hz₀mask] at hle
    exact hle
  have hKpos : (0 : ℚ) < K := by linarith
  have hKn : K ≤ n := by
    have h2 := List.sum_le_card_nsmul (cl.map (twnMaskInd T)) 1 ?_
    · rw [List.length_map, nsmul_eq_mul, mul_one] at h2
      exact h2
    · intro x hx
      rcases List.mem_map.mp hx with ⟨w, _, rfl⟩
      unfold twnMaskInd
      split_ifs <;> norm_num
  have hN0 : 0 < (cl.map (fun x => |twnMaskInd T x * x|)).sum := by
    have hmem : |twnMaskInd T z₀ * z₀| ∈ cl.map (fun x => |twnMaskInd T x * x|) :=
      List.mem_map_of_mem _ hz₀m
    have hle : |twnMaskInd T z₀ * z₀| ≤ (cl.map (fun x => |twnMaskInd T x * x|)).sum := by
      apply List.single_le_sum ?_ _ hmem
      intro x hx
      rcases List.mem_map.mp hx with ⟨w, _, rfl⟩
      exact abs_nonneg _
    rw [hz₀mask, one_mul] at hle
    linarith [hT0, hz₀T]
  have hA0 : 0 < A := by
    rw [hAdef]
    unfold twnAlpha
    exact div_pos hN0 hKpos
  have hAc : A ≤ c := by
    rw [hAdef]
    unfold twnAlpha
    rw [div_le_iff hKpos]
    have hle : (cl.map (fun x => |twnMaskInd T x * x|)).sum
        ≤ (cl.map (fun x => c * twnMaskInd T x)).sum := by
      apply List.sum_le_sum
      intro z hz
      have hzb := hbounds z hz
      have hzabs : |z| ≤ c := abs_le.mpr ⟨hzb.1, hzb.2⟩
      unfold twnMaskInd
      split_ifs with h
      · rw [one_mul, mul_one]
        exact hzabs
      · rw [zero_mul, mul_zero, abs_zero]
    rw [sum_map_const_mul c (twnMaskInd T) cl] at hle
    calc (cl.map (fun x => |twnMaskInd T x * x|)).sum ≤ c * K := hle
    _ = c * K := rfl
  have hfirst : twnLayerwise (-c) c xs = cl.map (twnOut T A) := rfl
  set y := cl.map (twnOut T A) with hydef
  have hyb : ∀ w ∈ y, -c ≤ w ∧ w ≤ c := by
    intro w hw
    rcases List.mem_map.mp hw with ⟨z, hzm, rfl⟩
    by_cases hp : T < z
    · rw [twnOut_eq_pos hT0 hp]
      exact ⟨by linarith, hAc⟩
    · by_cases hq : z < -T
      · rw [twnOut_eq_neg hT0 hq]
        constructor <;> linarith
      · rw [twnOut_eq_zero hp hq]
        constructor <;> linarith
  have hclampy : y.map (twnClampW (-c) c) = y := by
    have h1 : y.map (twnClampW (-c) c) = y.map id :=
      List.map_congr_left fun w hw => twnClampW_eq_self (hyb w hw).1 (hyb w hw).2
    rw [h1, List.map_id]
  have hsumy : (y.map (fun w => |w|)).sum = A * K := by
    rw [hydef, List.map_map]
    have h1 : cl.map ((fun w => |w|) ∘ twnOut T A)
        = cl.map (fun z => A * twnMaskInd T z) :=
      List.map_congr_left fun z _ => twnOut_abs hT0 hA0
    rw [h1, sum_map_const_mul A (twnMaskInd T) cl]
  have hylen : ((y.length : ℕ) : ℚ) = n := by
    rw [hydef, List.length_map, hndef]
  set T2 := twnThres ((y.length : ℕ) : ℚ) y with hT2def
  have hT2eq : T2 = 7/10 * (A * K / n) := by
    rw [hT2def]
    unfold twnThres meanAbs
    rw [hsumy, hylen]
  have hT2pos : 0 < T2 := by
    rw [hT2eq]
    have := div_pos (mul_pos hA0 hKpos) hn0
    linarith
  have hT2A : T2 < A := by
    rw [hT2eq]
    rw [mul_div_assoc'] at *
    rw [div_lt_iff hn0]
    nlinarith [hA0, hKn, hK1]
  have habs_out : ∀ z : ℚ, |twnOut T A z| = A * twnMaskInd T z :=
    fun z => twnOut_abs hT0 hA0
  have hmask_out : ∀ z : ℚ, twnMaskInd T2 (twnOut T A z) = twnMaskInd T z := by
    intro z
    by_cases h : T < |z|
    · have hm : twnMaskInd T z = 1 := by unfold twnMaskInd; rw [if_pos h]
      show (if T2 < |twnOut T A z| then (1:ℚ) else 0) = twnMaskInd T z
      rw [habs_out z, hm, mul_one, if_pos hT2A]
    · have hm : twnMaskInd T z = 0 := by unfold twnMaskInd; rw [if_neg h]
      show (if T2 < |twnOut T A z| then (1:ℚ) else 0) = twnMaskInd T z
      rw [habs_out z, hm, mul_zero, if_neg (not_lt.mpr hT2pos.le)]
  have hKy : (y.map (twnMaskInd T2)).sum = K := by
    rw [hydef, List.map_map]
    have h1 : cl.map (twnMaskInd T2 ∘ twnOut T A) = cl.map (twnMaskInd T) :=
      List.map_congr_left fun z _ => hmask_out z
    rw [h1, hKdef]
  have hNy : (y.map (fun w => |twnMaskInd T2 w * w|)).sum = A * K := by
    rw [hydef, List.map_map]
    have h1 : cl.map ((fun w => |twnMaskInd T2 w * w|) ∘ twnOut T A)
        = cl.map (fun z => A * twnMaskInd T z) := by
      apply List.map_congr_left
      intro z _
      show |twnMaskInd T2 (twnOut T A z) * twnOut T A z| = A * twnMaskInd T z
      rw [hmask_out z, abs_mul, habs_out z]
      by_cases h : T < |z|
      · have hm : twnMaskInd T z = 1 := by unfold twnMaskInd; rw [if_pos h]
        rw [hm, abs_one, one_mul, mul_one]
      · have hm : twnMaskInd T z = 0 := by unfold twnMaskInd; rw [if_neg h]
        rw [hm, abs_zero, zero_mul, mul_zero]
    rw [h1, sum_map_const_mul A (twnMaskInd T) cl]
  have hA2 : twnAlpha T2 y = A := by
    unfold twnAlpha
    rw [hNy, hKy]
    exact mul_div_cancel_right₀ A (ne_of_gt hKpos)
  calc twnLayerwise (-c) c (twnLayerwise (-c) c xs)
      = twnLayerwise (-c) c y := by rw [hfirst]
    _ = twnTernarize (((y.map (twnClampW (-c) c)).length : ℕ) : ℚ)
          (y.map (twnClampW (-c) c)) := rfl
    _ = twnTernarize (((y.length : ℕ) : ℚ)) y := by rw [hclampy]
    _ = y.map (twnOut T2 (twnAlpha T2 y)) := rfl
    _ = y.map (twnOut T2 A) := by rw [hA2]
    _ = y := by
        rw [hydef, List.map_map]
        apply List.map_congr_left
        intro z _
        show twnOut T2 A (twnOut T A z) = twnOut T A z
        by_cases hp : T < z
        · rw [twnOut_eq_pos hT0 hp]
          exact twnOut_eq_pos hT2pos.le hT2A
        · by_cases hq : z < -T
          · rw [twnOut_eq_neg hT0 hq]
            exact twnOut_eq_neg hT2pos.le (by linarith)
          · rw [twnOut_eq_zero hp hq]
            exact twnOut_eq_zero (by linarith) (by linarith)

/-- Witness for C7's amended theorem: `c = 5/2`, input `[1]`. -/
theorem twn_layerwise_idempotent_witness :
    (0 : ℚ) < 5/2
    ∧ (∃ z ∈ twnClamped (-(5/2)) (5/2) [1], z ≠ 0)
    ∧ twnLayerwise (-(5/2)) (5/2) (twnLayerwise (-(5/2)) (5/2) [1])
        = twnLayerwise (-(5/2)) (5/2) [1] :=
  ⟨by norm_num, ⟨1, by norm_num [twnClamped, twnClampW], by norm_num⟩,
    twn_layerwise_idempotent (5/2) (by norm_num) [1]
      ⟨1, by norm_num [twnClamped, twnClampW], by norm_num⟩⟩

/-- Counterexample to C7 as stated: with the asymmetric clip range
`(low, high) = (-3/2, 1)` and input `[1, -3/2]`, the first application gives
`[5/4, -5/4]`; the second clamps `5/4` down to `1`, recomputes
`alpha = 9/8`, and returns `[9/8, -9/8] ≠ [5/4, -5/4]`. -/
theorem twn_layerwise_idempotent_cex :
    twnLayerwise (-(3/2)) 1 (twnLayerwise (-(3/2)) 1 [1, -(3/2)])
      ≠ twnLayerwise (-(3/2)) 1 [1, -(3/2)] := by
  have h1 : twnLayerwise (-(3/2)) 1 [1, -(3/2)] = [5/4, -(5/4)] := by
    norm_num [twnLayerwise, twnTernarize, twnThres, meanAbs, twnAlpha, twnMaskInd,
      twnOut, twnClampW, abs_eq_max_neg, max_def]
  have h2 : twnLayerwise (-(3/2)) 1 [5/4, -(5/4)] = [9/8, -(9/8)] := by
    norm_num [twnLayerwise, twnTernarize, twnThres, meanAbs, twnAlpha, twnMaskInd,
      twnOut, twnClampW, abs_eq_max_neg, max_def]
  rw [h1, h2]
  norm_num

/-! ### C2: symmetric backward is the clipped straight-through estimator -/

/-- C2: `SymQuantizer.backward` returns the incoming gradient at every
position where the saved pre-clamp input lies strictly inside
`(clip_val[0], clip_val[1])`, exactly `0` at every position where it is
`≥ clip_val[1]` or `≤ clip_val[0]`, and `None` for the `clip_val`,
`num_bits` and `layerwise` arguments. -/
theorem sym_backward_ste (input grad : List ℚ) (clip : ℚ × ℚ) (i : ℕ)
    (hlen : input.length = grad.length) (hi : i < input.length) :
    (clip.1 < input.getD i 0 ∧ input.getD i 0 < clip.2 →
      (SymQuantizer.backward input clip grad).1.getD i 0 = grad.getD i 0)
    ∧ (clip.2 ≤ input.getD i 0 ∨ input.getD i 0 ≤ clip.1 →
      (SymQuantizer.backward input clip grad).1.getD i 0 = 0)
    ∧ (SymQuantizer.backward input clip grad).2.1 = none
    ∧ (SymQuantizer.backward input clip grad).2.2.1 = none
    ∧ (SymQuantizer.backward input clip grad).2.2.2 = none := by
  have hg : i < grad.length := by omega
  have hb2 : i < (List.zipWith (fun x g => if x ≤ clip.1 then (0 : ℚ) else g) input
      (List.zipWith (fun x g => if clip.2 ≤ x then (0 : ℚ) else g) input grad)).length := by
    rw [List.length_zipWith, List.length_zipWith]
    omega
  have hin : input.getD i 0 = input[i] := by
    rw [List.getD_eq_getElem?_getD, List.getElem?_eq_getElem hi, Option.getD_some]
  have hgr : grad.getD i 0 = grad[i] := by
    rw [List.getD_eq_getElem?_getD, List.getElem?_eq_getElem hg, Option.getD_some]
  have hmask : (SymQuantizer.backward input clip grad).1.getD i 0
      = (if input[i] ≤ clip.1 then (0 : ℚ)
         else if clip.2 ≤ input[i] then 0 else grad[i]) := by
    show (SymQuantizer.steMask clip.1 clip.2 input grad).getD i 0 = _
    simp only [SymQuantizer.steMask]
    rw [List.getD_eq_getElem?_getD, List.getElem?_eq_getElem hb2, Option.getD_some,
      List.getElem_zipWith, List.getElem_zipWith]
  refine ⟨?_, ?_, rfl, rfl, rfl⟩
  · intro h
    rw [hin] at h
    rw [hmask, hgr, if_neg (by linarith [h.1]), if_neg (by linarith [h.2])]
  · intro h
    rw [hin] at h
    rcases h with h | h
    · rw [hmask]
      by_cases hl : input[i] ≤ clip.1
      · rw [if_pos hl]
      · rw [if_neg hl, if_pos h]
    · rw [hmask, if_pos h]

/-- Witness for C2 at input `[3, 1, -3]`, clip `(-2, 2)`, incoming gradient
`[10, 20, 30]`, position `1` (strictly inside the clip range). -/
theorem sym_backward_ste_witness :
    ([3, 1, -3] : List ℚ).length = ([10, 20, 30] : List ℚ).length
    ∧ 1 < ([3, 1, -3] : List ℚ).length
    ∧ (((-2 : ℚ), (2 : ℚ)).1 < ([3, 1, -3] : List ℚ).getD 1 0
        ∧ ([3, 1, -3] : List ℚ).getD 1 0 < ((-2 : ℚ), (2 : ℚ)).2 →
      (SymQuantizer.backward [3, 1, -3] (-2, 2) [10, 20, 30]).1.getD 1 0
        = ([10, 20, 30] : List ℚ).getD 1 0)
    ∧ (((-2 : ℚ), (2 : ℚ)).2 ≤ ([3, 1, -3] : List ℚ).getD 1 0
        ∨ ([3, 1, -3] : List ℚ).getD 1 0 ≤ ((-2 : ℚ), (2 : ℚ)).1 →
      (SymQuantizer.backward [3, 1, -3] (-2, 2) [10, 20, 30]).1.getD 1 0 = 0)
    ∧ (SymQuantizer.backward [3, 1, -3] (-2, 2) [10, 20, 30]).2.1 = none
    ∧ (SymQuantizer.backward [3, 1, -3] (-2, 2) [10, 20, 30]).2.2.1 = none
    ∧ (SymQuantizer.backward [3, 1, -3] (-2, 2) [10, 20, 30]).2.2.2 = none := by
  refine ⟨rfl, by norm_num, ?_⟩
  have h := sym_backward_ste [3, 1, -3] [10, 20, 30] (-2, 2) 1 rfl (by norm_num)
  exact ⟨h.1, h.2.1, h.2.2.1, h.2.2.2.1, h.2.2.2.2⟩
